import Mathlib

/-!
Verification of the `reqx` Go library (github.com/jad21/reqx): a fluent HTTP
request builder (`reqx.go`) and a response wrapper with lazy, cached body
decoding (`response.go`).  The Go code is shallowly embedded below: byte
slices become `List Nat`, the mutable `Response`/`RequestBuilder` records
become Lean structures updated functionally, `sync.Once` becomes an explicit
`onceDone` flag, and the standard-library compression codecs (which live
outside this repository) are abstract parameters.
-/

namespace Reqx

/-- Go byte slices (`[]byte`) are modelled as lists of bytes. -/
abbrev Bytes := List Nat

/-- The decompression primitives of the Go standard library used by
`Response.cacheBody`: `compress/gzip` (`gzip.NewReader` + `io.ReadAll`),
`compress/zlib` and `compress/flate`.  They are external to the repository,
so each is an abstract function from the raw bytes to either the
decompressed bytes or an error message.  Each Go call site has two failure
points (constructing the reader and draining it); both leave the same
observable state, so a single `Except` per codec captures the behaviour. -/
structure Codecs where
  gunzip : Bytes → Except String Bytes
  unzlib : Bytes → Except String Bytes
  inflate : Bytes → Except String Bytes

/-- The fields of the underlying `*http.Response` that the wrapper reads:
the status code, the value of `Header.Get("Content-Encoding")`, the
`Uncompressed` flag set by the transport, and the body stream.  Draining the
stream (`io.ReadAll(r.resp.Body)`) either yields all bytes or fails, so the
stream is an `Except`. -/
structure HttpResp where
  statusCode : Nat
  contentEncoding : String
  uncompressed : Bool
  bodyStream : Except String Bytes

/-- The `Response` wrapper: the raw response handle, the cached body
(zero value `nil` ≈ `[]`), the `sync.Once` guard as a Boolean, the recorded
read error, and an instrumentation counter of how many times the underlying
body stream has been drained (one `io.ReadAll(reader)` in the Go source). -/
structure Response where
  resp : HttpResp
  body : Bytes := []
  onceDone : Bool := false
  readErr : Option String := none
  streamReads : Nat := 0

/-- Model of `&Response{resp: r}` — the wrapper built by `Do`, all other fields at
their Go zero values. -/
def mkResponse (hr : HttpResp) : Response := { resp := hr }

/-- The White_Space test of `unicode.IsSpace`, used by
`strings.TrimSpace`. -/
def isSpaceChar (c : Char) : Bool :=
  [9, 10, 11, 12, 13, 32, 133, 160, 5760, 8232, 8233, 8239, 8287,
    12288].contains c.toNat ||
  (8192 ≤ c.toNat && c.toNat ≤ 8202)

/-- Model of `strings.TrimSpace`: drop leading and trailing white space. -/
def goTrimSpace (s : String) : String :=
  String.mk (((s.toList.dropWhile isSpaceChar).reverse.dropWhile
    isSpaceChar).reverse)

/-- Model of `strings.ToLower` on the ASCII range (the `Content-Encoding`
values the switch compares against are ASCII). -/
def goToLower (s : String) : String :=
  String.mk (s.toList.map fun c =>
    if 65 ≤ c.toNat ∧ c.toNat ≤ 90 then Char.ofNat (c.toNat + 32) else c)

/-- The prefix of a character list before the first comma, for the
`strings.Index(enc, ",")` slice in `cacheBody`. -/
def takeBeforeComma : List Char → List Char
  | [] => []
  | c :: rest => if c = ',' then [] else c :: takeBeforeComma rest

/-- The encoding normalisation performed at the top of the `switch` in
`cacheBody`: `strings.TrimSpace`, then `strings.ToLower`, then, when the
value contains a comma, the part before the first comma trimmed again. -/
def normalizeEncoding (s : String) : String :=
  let enc := goToLower (goTrimSpace s)
  if enc.toList.any (fun c => c = ',') then
    goTrimSpace (String.mk (takeBeforeComma enc.toList))
  else enc

/-- The body of the `r.once.Do` closure in `Response.cacheBody`: read the
raw body (recording a read error on failure); if the transport already
decompressed (`r.resp.Uncompressed`) keep the raw bytes; otherwise switch on
the normalised `Content-Encoding`:
* `gzip`: decompress; on failure record the error and keep the raw bytes;
* `deflate`: try zlib first (an intermediate `readErr` set on a zlib read
  failure is overwritten by the flate attempt, so only the final outcome is
  modelled); fall back to raw deflate; if both fail record the error and
  keep the raw bytes;
* `br`: brotli is not supported, the bytes are re-read from an in-memory
  reader, which cannot fail, so they pass through undecoded;
* anything else: pass through unchanged. -/
def decodeBody (c : Codecs) (r : Response) : Response :=
  match r.resp.bodyStream with
  | .error e => { r with readErr := some ("read raw body failed: " ++ e) }
  | .ok raw =>
    if r.resp.uncompressed then
      { r with body := raw, readErr := none }
    else
      let enc := normalizeEncoding r.resp.contentEncoding
      if enc = "gzip" then
        match c.gunzip raw with
        | .error e => { r with readErr := some ("gzip: " ++ e), body := raw }
        | .ok dec => { r with body := dec, readErr := none }
      else if enc = "deflate" then
        match c.unzlib raw with
        | .ok dec => { r with body := dec, readErr := none }
        | .error _ =>
          match c.inflate raw with
          | .ok dec => { r with body := dec, readErr := none }
          | .error e =>
            { r with readErr := some ("deflate: " ++ e), body := raw }
      else if enc = "br" then
        { r with body := raw, readErr := none }
      else
        { r with body := raw, readErr := none }

/-- The `sync.Once` guard of `Response.cacheBody`: the first call marks
the guard, drains the stream once and decodes; every later call is a
no-op. -/
def cacheBody (c : Codecs) (r : Response) : Response :=
  if r.onceDone then r
  else decodeBody c { r with onceDone := true, streamReads := r.streamReads + 1 }

/-- The Go conversion `string(b)` from a byte slice. -/
def goString (b : Bytes) : String :=
  String.mk (b.map Char.ofNat)

/-- Model of `Response.Bytes`: run `cacheBody`, return the cached bytes and error. -/
def Response.bytesRead (c : Codecs) (r : Response) :
    Response × (Bytes × Option String) :=
  let r := cacheBody c r
  (r, (r.body, r.readErr))

/-- Model of `Response.String`: run `cacheBody`, return `string(r.body)` and the
cached error. -/
def Response.stringRead (c : Codecs) (r : Response) :
    Response × (String × Option String) :=
  let r := cacheBody c r
  (r, (goString r.body, r.readErr))

/-- Model of `Response.Json`: run `cacheBody`; if an error was recorded return it
without unmarshalling, otherwise return the result of `json.Unmarshal`
(modelled as an abstract function `um` from the cached bytes to an optional
error, since `encoding/json` is external). -/
def Response.jsonRead (c : Codecs) (um : Bytes → Option String)
    (r : Response) : Response × Option String :=
  let r := cacheBody c r
  match r.readErr with
  | some e => (r, some e)
  | none => (r, um r.body)

/-! ### Header and query-string machinery (net/http, net/url, net/textproto)

The builder only manipulates headers through `http.Header.Set`/`.Add` and
query parameters through `url.Values.Set`/`.Add`/`.Encode`; those standard
library operations are embedded here so the builder code can be translated
verbatim. -/

/-- A UTF-8 encoder on code points, matching how Go strings are byte
sequences; used to embed the byte-level loops of `net/url` escaping. -/
def utf8Bytes (n : Nat) : List Nat :=
  if n < 128 then [n]
  else if n < 2048 then [192 + n / 64, 128 + n % 64]
  else if n < 65536 then [224 + n / 4096, 128 + (n / 64) % 64, 128 + n % 64]
  else [240 + n / 262144, 128 + (n / 4096) % 64, 128 + (n / 64) % 64, 128 + n % 64]

/-- The bytes of a Go string. -/
def strBytes (s : String) : Bytes :=
  s.toList.flatMap (fun c => utf8Bytes c.toNat)

/-- The token-byte test of `net/textproto` (`validHeaderFieldByte`):
digits, letters, and the RFC 7230 token specials. -/
def validHeaderFieldByte (b : Nat) : Bool :=
  (48 ≤ b && b ≤ 57) || (65 ≤ b && b ≤ 90) || (97 ≤ b && b ≤ 122) ||
  [33, 35, 36, 37, 38, 39, 42, 43, 45, 46, 94, 95, 96, 124, 126].contains b

/-- The case-normalising loop of `textproto.CanonicalMIMEHeaderKey`: each
letter is uppercased right after a dash (or at the start) and lowercased
elsewhere; the flag tracks whether the previous byte was a dash. -/
def canonBytes : Bool → List Nat → List Nat
  | _, [] => []
  | upper, c :: rest =>
    let c :=
      if upper ∧ 97 ≤ c ∧ c ≤ 122 then c - 32
      else if ¬ upper ∧ 65 ≤ c ∧ c ≤ 90 then c + 32
      else c
    c :: canonBytes (c = 45) rest

/-- Model of `textproto.CanonicalMIMEHeaderKey`: if any byte is not a valid token
byte the key is returned unchanged, otherwise its case is canonicalised.
Header keys are ASCII in practice; a non-ASCII character fails the token
test in both the byte-level original and this character-level embedding. -/
def canonicalMIMEHeaderKey (s : String) : String :=
  let bs := s.toList.map Char.toNat
  if bs.all validHeaderFieldByte then
    String.mk ((canonBytes true bs).map Char.ofNat)
  else s

/-- Go map assignment `m[k] = v` over an association-list model: replace
the entry when the key is present, append a fresh entry otherwise. -/
def mapSet {α : Type} (m : List (String × α)) (k : String) (v : α) :
    List (String × α) :=
  if m.any (fun kv => kv.1 = k) then
    m.map (fun kv => if kv.1 = k then (k, v) else kv)
  else m ++ [(k, v)]

/-- Association-list lookup (first entry wins, as in a Go map where keys
are unique). -/
def assocFind {α : Type} : List (String × α) → String → Option α
  | [], _ => none
  | kv :: rest, k => if kv.1 = k then some kv.2 else assocFind rest k

/-- Model of `http.Header` / `textproto.MIMEHeader`: a map from canonical keys to
lists of values. -/
abbrev Header := List (String × List String)

/-- Model of `http.Header.Set`: store a single value under the canonical key. -/
def headerSet (h : Header) (k v : String) : Header :=
  mapSet h (canonicalMIMEHeaderKey k) [v]

/-- Model of `http.Header.Add`: append a value to the list under the canonical
key, creating the entry when absent. -/
def headerAdd (h : Header) (k v : String) : Header :=
  let ck := canonicalMIMEHeaderKey k
  if h.any (fun kv => kv.1 = ck) then
    h.map (fun kv => if kv.1 = ck then (kv.1, kv.2 ++ [v]) else kv)
  else h ++ [(ck, [v])]

/-- Model of `http.Header.Get`: the first value stored under the canonical key,
or the empty string. -/
def headerGet (h : Header) (k : String) : String :=
  match assocFind h (canonicalMIMEHeaderKey k) with
  | some (v :: _) => v
  | _ => ""

/-- Model of `url.Values`: a map from keys to lists of values (no
canonicalisation). -/
abbrev Values := List (String × List String)

/-- Model of `url.Values.Set`. -/
def valuesSet (vs : Values) (k v : String) : Values := mapSet vs k [v]

/-- Model of `url.Values.Add`. -/
def valuesAdd (vs : Values) (k v : String) : Values :=
  if vs.any (fun kv => kv.1 = k) then
    vs.map (fun kv => if kv.1 = k then (kv.1, kv.2 ++ [v]) else kv)
  else vs ++ [(k, [v])]

/-- The per-byte escaping of `url.QueryEscape`: alphanumerics and
`-._~` unescaped, space becomes `+`, everything else `%XX` with upper-case
hex (Go `shouldEscape` with `encodeQueryComponent`). -/
def queryEscapeByte (b : Nat) : List Char :=
  if (48 ≤ b ∧ b ≤ 57) ∨ (65 ≤ b ∧ b ≤ 90) ∨ (97 ≤ b ∧ b ≤ 122) ∨
      b = 45 ∨ b = 95 ∨ b = 46 ∨ b = 126 then
    [Char.ofNat b]
  else if b = 32 then [Char.ofNat 43]
  else
    [Char.ofNat 37,
     Char.ofNat (if b / 16 < 10 then 48 + b / 16 else 55 + b / 16),
     Char.ofNat (if b % 16 < 10 then 48 + b % 16 else 55 + b % 16)]

/-- Model of `url.QueryEscape` over the UTF-8 bytes of the string. -/
def queryEscape (s : String) : String :=
  String.mk ((strBytes s).flatMap queryEscapeByte)

/-- Byte-wise lexicographic comparison — the `<` of Go strings, used by
`sort.Strings`. -/
def bytesLt : List Nat → List Nat → Bool
  | [], [] => false
  | [], _ :: _ => true
  | _ :: _, [] => false
  | a :: as, b :: bs =>
    if a < b then true else if b < a then false else bytesLt as bs

/-- Go string comparison `a < b`. -/
def strLt (a b : String) : Bool := bytesLt (strBytes a) (strBytes b)

/-- Insertion into a sorted key list, for the `sort.Strings` call inside
`url.Values.Encode`. -/
def insertKey (k : String) : List String → List String
  | [] => [k]
  | x :: xs => if strLt k x then k :: x :: xs else x :: insertKey k xs

/-- The sorted key list of `url.Values.Encode`. -/
def sortKeys (ks : List String) : List String := ks.foldr insertKey []

/-- Join with `&` — `url.Values.Encode` writes `&` before every pair but
the first. -/
def joinAmp : List String → String
  | [] => ""
  | [x] => x
  | x :: xs => x ++ "&" ++ joinAmp xs

/-- Model of `url.Values.Encode`: keys sorted, each key/value pair escaped and
joined with `&`. -/
def encodeValues (vs : Values) : String :=
  let ks := sortKeys (vs.map Prod.fst)
  joinAmp
    (ks.flatMap fun k =>
      ((assocFind vs k).getD []).map fun v =>
        queryEscape k ++ "=" ++ queryEscape v)

/-! ### The request builder (`reqx.go`) -/

/-- One value of the `files` map: `multipartFile` carries the file name
and the reader.  A reader is modelled by what draining it with `io.Copy`
yields: the bytes, or a read error. -/
structure MPFile where
  fileName : String
  content : Except String Bytes

/-- Model of `RequestBuilder`.  `context.Context` and `httptrace.ClientTrace` are
only stored, never inspected, so they are kept as numeric handles; the
`io.Reader` in `body` is modelled by the bytes it yields; `files` and
`formFields` are Go maps, modelled as association lists with unique keys. -/
structure RB where
  ctx : Nat := 0
  method : String := ""
  url : String := ""
  params : Values := []
  headers : Header := []
  body : Option Bytes := none
  isJSON : Bool := false
  isMultipart : Bool := false
  files : List (String × MPFile) := []
  formFields : List (String × String) := []
  trace : Option Nat := none

/-- Model of `New()`: background context, method `GET`, empty maps. -/
def RB.new : RB := { method := "GET" }

/-- The package-level `Method(method, urlStr...)` constructor: the URL is
the first variadic argument when present, empty otherwise. -/
def methodCtor (m : String) (urlStr : List String) : RB :=
  { method := m, url := urlStr.headD "" }

/-- Model of `filepath.Base` on a Unix path, as used by `RequestBuilder.File`. -/
def filepathBase (path : String) : String :=
  if path = "" then "."
  else
    let trimmed := ((path.toList.reverse.dropWhile (fun c => c = '/')).reverse)
    if trimmed = [] then "/"
    else String.mk ((trimmed.reverse.takeWhile (fun c => ¬ c = '/')).reverse)

/-! The chained setters, as pure record updates.  `Json` receives the
`json.Marshal` output (marshalling lives in `encoding/json`; a marshal
failure panics and never returns a builder), and `File` receives the
content of the successfully opened file (an open failure panics). -/

def RB.withContext (rb : RB) (c : Nat) : RB := { rb with ctx := c }

def RB.setMethod (rb : RB) (m : String) : RB := { rb with method := m }

def RB.setUrl (rb : RB) (u : String) : RB := { rb with url := u }

/-- Model of `ParamsValues`: `Add` every value of every key. -/
def RB.paramsValues (rb : RB) (values : Values) : RB :=
  { rb with params :=
      (values.foldl
        (fun acc kv => kv.2.foldl (fun a v => valuesAdd a kv.1 v) acc)
        rb.params) }

/-- Model of `Params`: `Set` each pair. -/
def RB.setParams (rb : RB) (ps : List (String × String)) : RB :=
  { rb with params := ps.foldl (fun a kv => valuesSet a kv.1 kv.2) rb.params }

def RB.setParam (rb : RB) (k v : String) : RB :=
  { rb with params := valuesSet rb.params k v }

def RB.setHeader (rb : RB) (k v : String) : RB :=
  { rb with headers := headerSet rb.headers k v }

/-- The loop body of `Headers`: `Set(TrimSpace(pairs[i]),
TrimSpace(pairs[i+1]))` for consecutive pairs. -/
def setPairs : Header → List String → Header
  | hd, k :: v :: rest => setPairs (headerSet hd (goTrimSpace k) (goTrimSpace v)) rest
  | hd, _ => hd

/-- Model of `Headers(pairs...)`: with an odd number of arguments it prints a
warning and leaves the builder untouched; otherwise it sets each
consecutive pair, trimming whitespace. -/
def RB.setHeaders (rb : RB) (pairs : List String) : RB :=
  if pairs.length % 2 ≠ 0 then rb
  else { rb with headers := setPairs rb.headers pairs }

def RB.setIsJSON (rb : RB) : RB := { rb with isJSON := true }

def RB.bearer (rb : RB) (token : String) : RB :=
  { rb with headers := headerSet rb.headers "Authorization" ("Bearer " ++ token) }

def RB.setBody (rb : RB) (b : Bytes) : RB :=
  { rb with body := some b, isJSON := false, isMultipart := false }

def RB.setJson (rb : RB) (payload : Bytes) : RB :=
  { rb with body := some payload, isJSON := true, isMultipart := false }

/-- Model of `Form`: merge the fields into the `formFields` map. -/
def RB.applyForm (rb : RB) (fields : List (String × String)) : RB :=
  { rb with formFields :=
      fields.foldl (fun m kv => mapSet m kv.1 kv.2) rb.formFields }

/-- The common effect of `File`, `FileBytes` and `FileReader`: store the
multipart file under its field name, set the multipart flag, clear the
JSON flag. -/
def RB.addFile (rb : RB) (field : String) (mf : MPFile) : RB :=
  { rb with files := mapSet rb.files field mf,
            isMultipart := true, isJSON := false }

/-- Model of `File(fieldname, path)` on a successfully opened file with the given
content. -/
def RB.file (rb : RB) (field path : String) (content : Bytes) : RB :=
  rb.addFile field ⟨filepathBase path, .ok content⟩

/-- Model of `FileBytes(fieldname, filename, data)`. -/
def RB.fileBytes (rb : RB) (field filename : String) (data : Bytes) : RB :=
  rb.addFile field ⟨filename, .ok data⟩

/-- Model of `FileReader(fieldname, filename, reader)`. -/
def RB.fileReader (rb : RB) (field filename : String)
    (content : Except String Bytes) : RB :=
  rb.addFile field ⟨filename, content⟩

def RB.withTrace (rb : RB) (t : Option Nat) : RB := { rb with trace := t }

/-! ### Pointer-level view of the setters

Every setter in the Go source ends in `return rb`: it mutates the builder
behind the receiver pointer and hands the very same pointer back.  To state
that, builders live in a heap addressed by pointers, and each setter is a
heap update paired with the returned pointer. -/

abbrev Ptr := Nat

abbrev Heap := Ptr → RB

/-- The in-place mutation of the builder behind `p`. -/
def hupdate (h : Heap) (p : Ptr) (rb : RB) : Heap :=
  fun q => if q = p then rb else h q

/-- One chained configuration call, with its arguments. -/
inductive SetterCall where
  | withContextC (c : Nat)
  | methodC (m : String)
  | urlC (u : String)
  | paramsValuesC (values : Values)
  | paramsC (ps : List (String × String))
  | paramC (k v : String)
  | headerC (k v : String)
  | headersC (pairs : List String)
  | bearerC (token : String)
  | isJSONC
  | bodyC (b : Bytes)
  | jsonC (payload : Bytes)
  | formC (fields : List (String × String))
  | fileC (field path : String) (content : Bytes)
  | fileBytesC (field filename : String) (data : Bytes)
  | fileReaderC (field filename : String) (content : Except String Bytes)
  | withTraceC (t : Option Nat)

/-- The record update a call performs on the receiver. -/
def applyCall (rb : RB) : SetterCall → RB
  | .withContextC c => rb.withContext c
  | .methodC m => rb.setMethod m
  | .urlC u => rb.setUrl u
  | .paramsValuesC values => rb.paramsValues values
  | .paramsC ps => rb.setParams ps
  | .paramC k v => rb.setParam k v
  | .headerC k v => rb.setHeader k v
  | .headersC pairs => rb.setHeaders pairs
  | .bearerC token => rb.bearer token
  | .isJSONC => rb.setIsJSON
  | .bodyC b => rb.setBody b
  | .jsonC payload => rb.setJson payload
  | .formC fields => rb.applyForm fields
  | .fileC field path content => rb.file field path content
  | .fileBytesC field filename data => rb.fileBytes field filename data
  | .fileReaderC field filename content => rb.fileReader field filename content
  | .withTraceC t => rb.withTrace t

/-- A setter at the pointer level: mutate the builder behind the receiver
pointer, return the receiver pointer (`return rb` in every Go setter). -/
def applySetter (h : Heap) (p : Ptr) (sc : SetterCall) : Heap × Ptr :=
  (hupdate h p (applyCall (h p) sc), p)

/-! ### Execution (`RequestBuilder.Do`) -/

/-- The slice of `*url.URL` that `Do` touches: `u.RawQuery` is assigned,
everything else is opaque. -/
structure Url where
  base : String := ""
  rawQuery : String := ""

/-- The outgoing `*http.Request` as far as the wrapper builds it. -/
structure Request where
  method : String
  url : Url
  headers : Header
  body : Option Bytes

/-- Model of `multipart.Writer.FormDataContentType()`: the boundary is quoted when
it contains one of the special bytes. -/
def formDataContentType (boundary : String) : String :=
  let specials := "()<>@,;:\\\"/[]?= "
  if boundary.toList.any (fun c => specials.toList.contains c) then
    "multipart/form-data; boundary=" ++ "\"" ++ boundary ++ "\""
  else
    "multipart/form-data; boundary=" ++ boundary

/-- The standard-library pieces `Do` delegates to, as abstract
parameters: `url.Parse` (whose error `Do` discards), the random boundary
chosen by `multipart.NewWriter`, the multipart serialisation of the
writer, and the validity check of `http.NewRequestWithContext` (`some`
error message when request construction fails). -/
structure DoEnv where
  parse : String → Url
  boundary : String
  multipartEncode : String → List (String × String × Bytes) →
    List (String × String) → Bytes
  newReqErr : String → Url → Option String

/-- The file loop of `Do`: `CreateFormFile` cannot fail on a
`bytes.Buffer`, so the only failure is `io.Copy` from a file reader; the
first failing reader aborts `Do`. -/
def collectFiles : List (String × MPFile) → Except String (List (String × String × Bytes))
  | [] => .ok []
  | (field, mf) :: rest =>
    match mf.content with
    | .error e => .error e
    | .ok bs =>
      match collectFiles rest with
      | .error e => .error e
      | .ok tl => .ok ((field, mf.fileName, bs) :: tl)

/-- The query-string resolution at the top of `Do`: parse the URL and,
when any parameter was accumulated, overwrite `RawQuery` with the encoded
parameters. -/
def resolveUrl (env : DoEnv) (rb : RB) : Url :=
  let u := env.parse rb.url
  if !rb.params.isEmpty then { u with rawQuery := encodeValues rb.params } else u

/-- The body-mode chain of `Do`: multipart when the flag is set and at
least one file is attached (serialise files and fields, set the multipart
content type); else JSON content type when the JSON flag is set; else the
URL-encoded form when any form field was accumulated; else the builder is
left as it is. -/
def serializeBody (env : DoEnv) (rb : RB) : Except String RB :=
  if rb.isMultipart && !rb.files.isEmpty then
    match collectFiles rb.files with
    | .error e => .error e
    | .ok fs =>
      .ok { rb with
        body := some (env.multipartEncode env.boundary fs rb.formFields),
        headers := headerSet rb.headers "Content-Type"
          (formDataContentType env.boundary) }
  else if rb.isJSON then
    .ok { rb with headers := headerSet rb.headers "Content-Type" "application/json" }
  else if !rb.formFields.isEmpty then
    let form := rb.formFields.foldl (fun a kv => valuesSet a kv.1 kv.2) ([] : Values)
    .ok { rb with
      body := some (strBytes (encodeValues form)),
      headers := headerSet rb.headers "Content-Type"
        "application/x-www-form-urlencoded" }
  else .ok rb

/-- The header-copy loop of `Do`: every accumulated value is `Add`-ed to
the fresh header map of the new request. -/
def copyHeaders (h : Header) : Header :=
  h.foldl (fun acc kv => kv.2.foldl (fun a v => headerAdd a kv.1 v) acc) []

/-- Everything `Do` does before handing the request to a client: resolve
the query string, serialise the body per the active mode, build the
request, attach the headers.  Returns the mutated builder and the request,
or the first error. -/
def doPrep (env : DoEnv) (rb : RB) : Except String (RB × Request) :=
  let u := resolveUrl env rb
  match serializeBody env rb with
  | .error e => .error e
  | .ok rb1 =>
    match env.newReqErr rb1.method u with
    | some e => .error e
    | none =>
      .ok (rb1,
        { method := rb1.method, url := u,
          headers := copyHeaders rb1.headers, body := rb1.body })

/-- An `*http.Client` handle (only its identity matters here). -/
abbrev Client := Nat

/-- The client selection of `Do`: the first variadic argument when it is
present and non-nil, otherwise the process-wide default client. -/
def chooseClient (clients : List (Option Client)) (defc : Client) : Client :=
  match clients with
  | some c :: _ => c
  | _ => defc

/-- Model of `RequestBuilder.Do`: prepare the request, pick the client, send, and
return the Go pair `(*Response, error)` — `(nil, err)` on every failure,
`(&Response{resp: r}, nil)` on success.  The transport is the abstract
`send` function. -/
def doRun (env : DoEnv) (send : Client → Request → Except String HttpResp)
    (clients : List (Option Client)) (defc : Client) (rb : RB) :
    Option Response × Option String :=
  match doPrep env rb with
  | .error e => (none, some e)
  | .ok (_, req) =>
    match send (chooseClient clients defc) req with
    | .error e => (none, some e)
    | .ok hr => (some (mkResponse hr), none)

/-- The four body modes of the claim set. -/
inductive BodyMode where
  | multipartM
  | jsonM
  | formM
  | rawM
deriving DecidableEq

/-- Which branch of the body-mode chain of `Do` fires for a builder. -/
def activeMode (rb : RB) : BodyMode :=
  if rb.isMultipart && !rb.files.isEmpty then .multipartM
  else if rb.isJSON then .jsonM
  else if !rb.formFields.isEmpty then .formM
  else .rawM

/-! ### Remaining observable operations -/

/-- An `os.WriteFile` call: target path, contents, permission bits. -/
structure FileWrite where
  path : String
  contents : Bytes
  perm : Nat

/-- Model of `Response.ToFile`: return the recorded error when present,
otherwise write the cached body to the fixed path `continue.html` with
permissions 0644.  The `filename` argument is never used, and `cacheBody`
is not called, so the receiver is untouched. -/
def Response.toFile (r : Response) (filename : String) :
    Response × Except String FileWrite :=
  match r.readErr with
  | some e => (r, .error e)
  | none => (r, .ok { path := "continue.html", contents := r.body, perm := 0o644 })

/-- One body-reading call on a response. -/
inductive ReadOp where
  | bytesOp
  | stringOp
  | jsonOp

/-- The value a body-reading call hands back to the caller. -/
inductive OpResult where
  | bytesR (b : Bytes) (e : Option String)
  | stringR (s : String) (e : Option String)
  | jsonR (e : Option String)

/-- Run one body-reading call: the evolved response plus the returned
value. -/
def runOp (c : Codecs) (um : Bytes → Option String) (r : Response) :
    ReadOp → Response × OpResult
  | .bytesOp =>
    let out := r.bytesRead c
    (out.1, .bytesR out.2.1 out.2.2)
  | .stringOp =>
    let out := r.stringRead c
    (out.1, .stringR out.2.1 out.2.2)
  | .jsonOp =>
    let out := r.jsonRead c um
    (out.1, .jsonR out.2)

/-- Run a sequence of body-reading calls, keeping only the state. -/
def runOps (c : Codecs) (um : Bytes → Option String) (r : Response)
    (ops : List ReadOp) : Response :=
  ops.foldl (fun s op => (runOp c um s op).1) r

/-- The value a call must return when it only consults the cache: the
cached bytes and cached error for `Bytes`, their string conversion for
`String`, and for `Json` the cached error or else the unmarshal result of
the cached bytes. -/
def cachedResult (um : Bytes → Option String) (r : Response) :
    ReadOp → OpResult
  | .bytesOp => .bytesR r.body r.readErr
  | .stringOp => .stringR (goString r.body) r.readErr
  | .jsonOp =>
    .jsonR (match r.readErr with
            | some e => some e
            | none => um r.body)

/-! ### The body-mode analysis of claim C4 -/

/-- Apply a chain of configuration calls to a builder (record level). -/
def applyCalls (rb : RB) (calls : List SetterCall) : RB :=
  calls.foldl applyCall rb

/-- The calls that attach a file (`File`, `FileBytes`, `FileReader`). -/
def isFileCall : SetterCall → Bool
  | .fileC _ _ _ => true
  | .fileBytesC _ _ _ => true
  | .fileReaderC _ _ _ => true
  | _ => false

/-- The calls that write the `isJSON`/`isMultipart` flags: `Body`, `Json`
and the file-attaching calls. -/
def isModeCall (sc : SetterCall) : Bool :=
  match sc with
  | .bodyC _ => true
  | .jsonC _ => true
  | _ => isFileCall sc

/-- Recognise a `Json` call. -/
def isJsonCall : SetterCall → Bool
  | .jsonC _ => true
  | _ => false

/-- The body-configuring calls of claim C4: `Body`, `Json`, `Form` and the
file-attaching calls. -/
def isBodyConfigCall (sc : SetterCall) : Bool :=
  match sc with
  | .formC _ => true
  | _ => isModeCall sc

/-- A `Form` call that actually adds at least one field. -/
def formAdds : SetterCall → Bool
  | .formC fields => !fields.isEmpty
  | _ => false

/-- The body mode a single call selects, per the wording of the claim. -/
def modeOfCall (sc : SetterCall) : BodyMode :=
  match sc with
  | .bodyC _ => .rawM
  | .jsonC _ => .jsonM
  | .formC _ => .formM
  | _ => .multipartM

/-- Modelled from the spec: the active mode is the one selected by the
last relevant (body-configuring) call, and multipart takes precedence
whenever any file was attached.  Stated only for comparison with
`activeMode`, which is the translation of the source. -/
def specActiveMode (calls : List SetterCall) : BodyMode :=
  if calls.any isFileCall then .multipartM
  else
    match calls.reverse.find? isBodyConfigCall with
    | some sc => modeOfCall sc
    | none => .rawM

/-- The mode selection the source actually implements, phrased over the
call sequence: the last flag-writing call (`Body`/`Json`/file) decides
between multipart, JSON and the fall-through; in the fall-through the form
mode fires exactly when some `Form` call added a field. -/
def correctedMode (calls : List SetterCall) : BodyMode :=
  match calls.reverse.find? isModeCall with
  | some sc =>
    if isFileCall sc then .multipartM
    else if isJsonCall sc then .jsonM
    else if calls.any formAdds then .formM
    else .rawM
  | none =>
    if calls.any formAdds then .formM
    else .rawM

/-- Consecutive pairing of the variadic `Headers` arguments, mirroring the
`i += 2` loop. -/
def pairListOf : List String → List (String × String)
  | k :: v :: rest => (k, v) :: pairListOf rest
  | _ => []

/-- The claim C10 reading of `Headers`: one `Set` per consecutive pair,
with whitespace trimmed from each key and value. -/
def headersAfterPairs (hd : Header) (pairs : List String) : Header :=
  (pairListOf pairs).foldl
    (fun h kv => headerSet h (goTrimSpace kv.1) (goTrimSpace kv.2)) hd

/-! ### Well-formed header maps

Every header map a builder can accumulate has canonical keys (all entries
were created by `Set`), a non-empty value list per entry, and no duplicate
keys; the header-copy loop of `Do` reproduces such a map exactly. -/

def HeaderWF (h : Header) : Prop :=
  (∀ kv ∈ h, canonicalMIMEHeaderKey kv.1 = kv.1 ∧ kv.2 ≠ []) ∧
  (h.map Prod.fst).Nodup

/-! ### Concrete fixtures used by the witness theorems -/

/-- Codecs that fail on every input, for witnesses exercising the failure
paths. -/
def witCodecsFail : Codecs :=
  { gunzip := fun _ => .error "cg",
    unzlib := fun _ => .error "cz",
    inflate := fun _ => .error "cf" }

/-- A transport-decompressed response declaring gzip, for the C8 witness. -/
def witRespU : Response :=
  mkResponse
    { statusCode := 200, contentEncoding := "gzip",
      uncompressed := true, bodyStream := .ok [104, 105] }

/-- A cached response with a one-byte body, for the C9 witness. -/
def witResp9 : Response :=
  { resp :=
      { statusCode := 200, contentEncoding := "",
        uncompressed := false, bodyStream := .ok [1] },
    body := [1], onceDone := true, readErr := none, streamReads := 1 }

/-- Codecs that succeed with fixed outputs, for witnesses of the success
paths. -/
def witCodecsOk : Codecs :=
  { gunzip := fun _ => .ok [10],
    unzlib := fun _ => .ok [11],
    inflate := fun _ => .ok [12] }

/-- A fresh gzip-declared response (mixed case, comma list and padding,
all removed by the normalisation), for the C1 witness. -/
def witResp1 : Response :=
  mkResponse
    { statusCode := 200, contentEncoding := " GZip , br",
      uncompressed := false, bodyStream := .ok [1, 2, 3] }

/-- A fresh response declaring deflate whose stream holds undecodable
bytes (under `witCodecsFail`), for the C2 witness. -/
def witResp2 : Response :=
  mkResponse
    { statusCode := 500, contentEncoding := "deflate",
      uncompressed := false, bodyStream := .ok [7, 8] }

/-- An unmarshaller that always succeeds, for witnesses. -/
def witUm : Bytes → Option String := fun _ => none

/-- Calls for the C4 witness: a file attachment followed by `Json`. -/
def witCalls4 : List SetterCall :=
  [SetterCall.fileBytesC "f" "doc.txt" [1], SetterCall.jsonC [123]]

/-- The all-fresh heap, for witnesses. -/
def witHeap : Heap := fun _ => RB.new

/-- Arguments for the C10 witness: one even list, one odd list. -/
def witPairsEven : List String := [" X-A ", " 1 "]

/-- A deterministic environment for witnesses: identity-like parse, a
fixed boundary, a stub multipart serialisation, request construction
always valid. -/
def witEnv : DoEnv :=
  { parse := fun s => { base := s, rawQuery := "" },
    boundary := "b123",
    multipartEncode := fun _ _ _ => [9, 9],
    newReqErr := fun _ _ => none }

/-- A JSON-mode builder with one query parameter and one header. -/
def witRb5 : RB :=
  { RB.new with
      isJSON := true
      params := [("q", ["v w"])]
      headers := [("X-A", ["1"])] }

/-- The builder after serialisation: the JSON content type was set. -/
def witRb5' : RB :=
  { RB.new with
      isJSON := true
      params := [("q", ["v w"])]
      headers := [("X-A", ["1"]), ("Content-Type", ["application/json"])] }

/-- The request `doPrep` builds from `witRb5`. -/
def witReq5 : Request :=
  { method := "GET", url := { base := "", rawQuery := "q=v+w" },
    headers := [("X-A", ["1"]), ("Content-Type", ["application/json"])],
    body := none }

/-- The request `doPrep` builds from a fresh builder. -/
def witReq6 : Request :=
  { method := "GET", url := { base := "", rawQuery := "" },
    headers := [], body := none }

/-- The response the witness transport always returns. -/
def witHr6 : HttpResp :=
  { statusCode := 200, contentEncoding := "", uncompressed := false,
    bodyStream := .ok [] }

/-- A transport that always succeeds with `witHr6`. -/
def witSendOk : Client → Request → Except String HttpResp :=
  fun _ _ => .ok witHr6

/-! ## Theorems -/

/-! ### Response-side helper lemmas -/

theorem decodeBody_resp (c : Codecs) (r : Response) :
    (decodeBody c r).resp = r.resp := by
  unfold decodeBody
  rcases h : r.resp.bodyStream with e | raw <;> simp [h]
  split
  · rfl
  split
  · rcases c.gunzip raw <;> rfl
  split
  · rcases c.unzlib raw with _ | _
    · rcases c.inflate raw <;> rfl
    · rfl
  rfl

theorem decodeBody_onceDone (c : Codecs) (r : Response) :
    (decodeBody c r).onceDone = r.onceDone := by
  unfold decodeBody
  rcases h : r.resp.bodyStream with e | raw <;> simp [h]
  split
  · rfl
  split
  · rcases c.gunzip raw <;> rfl
  split
  · rcases c.unzlib raw with _ | _
    · rcases c.inflate raw <;> rfl
    · rfl
  rfl

theorem decodeBody_streamReads (c : Codecs) (r : Response) :
    (decodeBody c r).streamReads = r.streamReads := by
  unfold decodeBody
  rcases h : r.resp.bodyStream with e | raw <;> simp [h]
  split
  · rfl
  split
  · rcases c.gunzip raw <;> rfl
  split
  · rcases c.unzlib raw with _ | _
    · rcases c.inflate raw <;> rfl
    · rfl
  rfl

theorem cacheBody_of_done {r : Response} (c : Codecs) (h : r.onceDone = true) :
    cacheBody c r = r := by
  simp [cacheBody, h]

theorem cacheBody_onceDone (c : Codecs) (r : Response) :
    (cacheBody c r).onceDone = true := by
  unfold cacheBody
  split
  · assumption
  · rw [decodeBody_onceDone]

theorem cacheBody_idem (c : Codecs) (r : Response) :
    cacheBody c (cacheBody c r) = cacheBody c r :=
  cacheBody_of_done c (cacheBody_onceDone c r)

theorem cacheBody_streamReads (c : Codecs) (r : Response) :
    (cacheBody c r).streamReads =
      (if r.onceDone then r.streamReads else r.streamReads + 1) := by
  unfold cacheBody
  split
  · simp [*]
  · rw [decodeBody_streamReads]

theorem cacheBody_of_fresh {r : Response} (c : Codecs) (h : r.onceDone = false) :
    cacheBody c r =
      decodeBody c { r with onceDone := true, streamReads := r.streamReads + 1 } := by
  simp [cacheBody, h]

/-! ### Claim C8 -/

/-- C8: for every response whose transport already decompressed the body
(`Uncompressed`), the cached body equals the raw bytes read from the
stream and the recorded error is nil, regardless of the declared
`Content-Encoding`; no second decompression is attempted (the codecs are
never consulted: the conclusion holds for every `Codecs`). -/
theorem C8_uncompressed_passthrough (c : Codecs) (r : Response) (raw : Bytes)
    (hd : r.onceDone = false) (hu : r.resp.uncompressed = true)
    (hs : r.resp.bodyStream = .ok raw) :
    (cacheBody c r).body = raw ∧ (cacheBody c r).readErr = none := by
  rw [cacheBody_of_fresh c hd]
  unfold decodeBody
  simp [hs, hu]



theorem C8_witness :
    (cacheBody witCodecsFail witRespU).body = [104, 105] ∧
    (cacheBody witCodecsFail witRespU).readErr = none :=
  C8_uncompressed_passthrough witCodecsFail witRespU [104, 105] rfl rfl rfl

/-! ### Claim C9 -/

/-- C9: `ToFile` ignores its filename argument and writes the currently
cached body to the fixed path `continue.html`; it does not trigger the
body read (the receiver is returned untouched and no codec is involved),
so on a fresh wrapper it writes an empty body. -/
theorem C9_toFile_fixed_path (r : Response) (f g : String) :
    r.toFile f = r.toFile g ∧
    (r.toFile f).1 = r ∧
    (∀ w, (r.toFile f).2 = .ok w →
       w.path = "continue.html" ∧ w.contents = r.body) ∧
    (∀ hr, ((mkResponse hr).toFile f).2 =
       .ok { path := "continue.html", contents := [], perm := 0o644 }) := by
  rcases h : r.readErr with _ | e <;>
    simp [Response.toFile, mkResponse, h]


theorem C9_witness :
    witResp9.toFile "a.html" = witResp9.toFile "b.html" ∧
    (witResp9.toFile "a.html").1 = witResp9 ∧
    (FileWrite.path { path := "continue.html", contents := [1], perm := 0o644 }
        = "continue.html" ∧
     FileWrite.contents { path := "continue.html", contents := [1], perm := 0o644 }
        = witResp9.body) := by
  obtain ⟨h1, h2, h3, _⟩ := C9_toFile_fixed_path witResp9 "a.html" "b.html"
  exact ⟨h1, h2, h3 _ rfl⟩

/-! ### Claim C1 -/

/-- C1: the body-decoding step selects by the declared `Content-Encoding`
(compared after the trim/lower-case/first-comma-item normalisation the
switch performs): `gzip` caches the gzip-decompression of the raw bytes;
`deflate` attempts zlib-wrapped decompression first and falls back to raw
deflate on its failure; `br` passes the raw bytes through undecoded; any
other or absent encoding passes the raw bytes through unchanged.  Stated
for responses the transport did not already decompress and whose stream
was read successfully; the decompression-failure paths are claim C2. -/
theorem C1_encoding_selection (c : Codecs) (r : Response) (raw : Bytes)
    (hd : r.onceDone = false) (hu : r.resp.uncompressed = false)
    (hs : r.resp.bodyStream = .ok raw) :
    (normalizeEncoding r.resp.contentEncoding = "gzip" →
      ∀ dec, c.gunzip raw = .ok dec →
        (cacheBody c r).body = dec ∧ (cacheBody c r).readErr = none) ∧
    (normalizeEncoding r.resp.contentEncoding = "deflate" →
      (∀ dec, c.unzlib raw = .ok dec →
        (cacheBody c r).body = dec ∧ (cacheBody c r).readErr = none) ∧
      (∀ e dec, c.unzlib raw = .error e → c.inflate raw = .ok dec →
        (cacheBody c r).body = dec ∧ (cacheBody c r).readErr = none)) ∧
    (normalizeEncoding r.resp.contentEncoding = "br" →
      (cacheBody c r).body = raw ∧ (cacheBody c r).readErr = none) ∧
    (normalizeEncoding r.resp.contentEncoding ≠ "gzip" →
     normalizeEncoding r.resp.contentEncoding ≠ "deflate" →
     normalizeEncoding r.resp.contentEncoding ≠ "br" →
      (cacheBody c r).body = raw ∧ (cacheBody c r).readErr = none) := by
  rw [cacheBody_of_fresh c hd]
  unfold decodeBody
  refine ⟨?_, ?_, ?_, ?_⟩
  · intro henc dec hok
    simp [hs, hu, henc, hok]
  · intro henc
    constructor
    · intro dec hok
      simp [hs, hu, henc, hok]
    · intro e dec herr hok
      simp [hs, hu, henc, herr, hok]
  · intro henc
    simp [hs, hu, henc]
  · intro h1 h2 h3
    simp [hs, hu, h1, h2, h3]



theorem C1_witness :
    (cacheBody witCodecsOk witResp1).body = [10] ∧
    (cacheBody witCodecsOk witResp1).readErr = none :=
  (C1_encoding_selection witCodecsOk witResp1 [1, 2, 3] rfl rfl rfl).1
    (by decide) [10] rfl

/-! ### Claim C2 -/

/-- C2: when body decompression fails under a matching declared encoding
(invalid gzip, or deflate where both the zlib-wrapped and the raw-deflate
attempts fail), the raw undecoded bytes are kept as the cached body and a
non-nil error is recorded; every subsequent `Bytes`, `String` and `Json`
call returns that error — `Bytes` and `String` alongside the raw bytes,
`Json` without consulting the unmarshaller (the conclusion holds for
every unmarshal function `um`). -/
theorem C2_failure_keeps_raw (c : Codecs) (r : Response) (raw : Bytes)
    (hd : r.onceDone = false) (hu : r.resp.uncompressed = false)
    (hs : r.resp.bodyStream = .ok raw)
    (hfail :
      (normalizeEncoding r.resp.contentEncoding = "gzip" ∧
        (∃ e, c.gunzip raw = .error e)) ∨
      (normalizeEncoding r.resp.contentEncoding = "deflate" ∧
        (∃ e, c.unzlib raw = .error e) ∧ (∃ e, c.inflate raw = .error e))) :
    (cacheBody c r).body = raw ∧
    (cacheBody c r).readErr.isSome = true ∧
    (cacheBody c r).bytesRead c =
      (cacheBody c r, (raw, (cacheBody c r).readErr)) ∧
    (cacheBody c r).stringRead c =
      (cacheBody c r, (goString raw, (cacheBody c r).readErr)) ∧
    (∀ um, (cacheBody c r).jsonRead c um =
      (cacheBody c r, (cacheBody c r).readErr)) := by
  have hbody : (cacheBody c r).body = raw ∧ (cacheBody c r).readErr.isSome = true := by
    rw [cacheBody_of_fresh c hd]
    unfold decodeBody
    rcases hfail with ⟨henc, e, herr⟩ | ⟨henc, ⟨e1, herr1⟩, ⟨e2, herr2⟩⟩
    · simp [hs, hu, henc, herr]
    · simp [hs, hu, henc, herr1, herr2]
  have hidem : cacheBody c (cacheBody c r) = cacheBody c r := cacheBody_idem c r
  refine ⟨hbody.1, hbody.2, ?_, ?_, ?_⟩
  · unfold Response.bytesRead
    rw [hidem]
    simp [hbody.1]
  · unfold Response.stringRead
    rw [hidem]
    simp [hbody.1]
  · intro um
    unfold Response.jsonRead
    rw [hidem]
    rcases hre : (cacheBody c r).readErr with _ | e
    · rw [hre] at hbody
      simp at hbody
    · simp [hre]


theorem C2_witness :
    (cacheBody witCodecsFail witResp2).body = [7, 8] ∧
    (cacheBody witCodecsFail witResp2).readErr.isSome = true :=
  ⟨(C2_failure_keeps_raw witCodecsFail witResp2 [7, 8] rfl rfl rfl
      (Or.inr ⟨by decide, ⟨"cz", rfl⟩, ⟨"cf", rfl⟩⟩)).1,
   (C2_failure_keeps_raw witCodecsFail witResp2 [7, 8] rfl rfl rfl
      (Or.inr ⟨by decide, ⟨"cz", rfl⟩, ⟨"cf", rfl⟩⟩)).2.1⟩

/-! ### Claim C3 -/

theorem runOp_state (c : Codecs) (um : Bytes → Option String) (r : Response)
    (op : ReadOp) : (runOp c um r op).1 = cacheBody c r := by
  cases op
  · rfl
  · rfl
  · unfold runOp Response.jsonRead
    rcases h : (cacheBody c r).readErr <;> simp [h]

theorem runOps_cons (c : Codecs) (um : Bytes → Option String) (r : Response)
    (op : ReadOp) (ops : List ReadOp) :
    runOps c um r (op :: ops) = runOps c um (cacheBody c r) ops := by
  simp [runOps, runOp_state]

theorem runOps_ne_nil (c : Codecs) (um : Bytes → Option String) (r : Response)
    (ops : List ReadOp) (h : ops ≠ []) :
    runOps c um r ops = cacheBody c r := by
  induction ops generalizing r with
  | nil => exact absurd rfl h
  | cons op ops ih =>
    rw [runOps_cons]
    rcases ops with _ | ⟨op2, ops⟩
    · rfl
    · rw [ih (cacheBody c r) (by simp), cacheBody_idem]

theorem runOp_cached (c : Codecs) (um : Bytes → Option String) (s : Response)
    (op : ReadOp) (h : s.onceDone = true) :
    runOp c um s op = (s, cachedResult um s op) := by
  cases op
  · simp [runOp, Response.bytesRead, cacheBody_of_done c h, cachedResult]
  · simp [runOp, Response.stringRead, cacheBody_of_done c h, cachedResult]
  · unfold runOp Response.jsonRead cachedResult
    rw [cacheBody_of_done c h]
    rcases hre : s.readErr <;> simp [hre]

/-- C3: across any sequence of `Bytes`/`String`/`Json` calls the
underlying stream is read at most once; a first body-reading call runs
exactly `cacheBody`; and any call on an already-cached response returns
the cached bytes and cached error (string-converted for `String`,
unmarshalled for `Json` when no error is cached) with the state — hence
the stream — untouched. -/
theorem C3_read_once (c : Codecs) (um : Bytes → Option String) (r : Response)
    (ops : List ReadOp) (h0 : r.streamReads = 0) :
    (runOps c um r ops).streamReads ≤ 1 ∧
    (ops ≠ [] → runOps c um r ops = cacheBody c r) ∧
    (∀ s op, s.onceDone = true →
      runOp c um s op = (s, cachedResult um s op)) := by
  refine ⟨?_, fun h => runOps_ne_nil c um r ops h, fun s op h => runOp_cached c um s op h⟩
  rcases ops with _ | ⟨op, ops⟩
  · simp only [runOps, List.foldl_nil]
    omega
  · rw [runOps_ne_nil c um r _ (by simp), cacheBody_streamReads]
    split <;> omega


theorem C3_witness :
    (runOps witCodecsOk witUm witResp1 [ReadOp.bytesOp, ReadOp.stringOp]).streamReads ≤ 1 ∧
    runOps witCodecsOk witUm witResp1 [ReadOp.bytesOp, ReadOp.stringOp] =
      cacheBody witCodecsOk witResp1 := by
  obtain ⟨h1, h2, _⟩ :=
    C3_read_once witCodecsOk witUm witResp1 [ReadOp.bytesOp, ReadOp.stringOp] rfl
  exact ⟨h1, h2 (by simp)⟩

/-! ### Claim C4 -/

theorem mapSet_isEmpty {α : Type} (m : List (String × α)) (k : String) (v : α) :
    (mapSet m k v).isEmpty = false := by
  unfold mapSet
  split
  · rcases m with _ | ⟨kv, rest⟩
    · simp_all
    · simp
  · simp

theorem foldl_mapSet_isEmpty {α : Type} (fields : List (String × α))
    (m : List (String × α)) :
    (fields.foldl (fun m kv => mapSet m kv.1 kv.2) m).isEmpty =
      (m.isEmpty && fields.isEmpty) := by
  induction fields generalizing m with
  | nil => simp
  | cons kv rest ih =>
    simp only [List.foldl_cons, ih, mapSet_isEmpty]
    simp

theorem file_call_is_mode_call (sc : SetterCall) :
    isFileCall sc = true → isModeCall sc = true := by
  cases sc <;> simp [isFileCall, isModeCall]

theorem applyCall_flags (rb : RB) (sc : SetterCall)
    (hc : isBodyConfigCall sc = true) :
    (applyCall rb sc).isMultipart =
      (if isModeCall sc then isFileCall sc else rb.isMultipart) ∧
    (applyCall rb sc).isJSON =
      (if isModeCall sc then isJsonCall sc else rb.isJSON) ∧
    (applyCall rb sc).files.isEmpty = (rb.files.isEmpty && !isFileCall sc) ∧
    (applyCall rb sc).formFields.isEmpty =
      (rb.formFields.isEmpty && !formAdds sc) := by
  cases sc <;>
    simp_all [applyCall, isBodyConfigCall, isModeCall, isFileCall, isJsonCall,
      formAdds, RB.setBody, RB.setJson, RB.applyForm, RB.addFile, RB.file,
      RB.fileBytes, RB.fileReader, mapSet_isEmpty, foldl_mapSet_isEmpty]

theorem applyCalls_flags (calls : List SetterCall)
    (hall : calls.all isBodyConfigCall = true) :
    (applyCalls RB.new calls).isMultipart =
      (match calls.reverse.find? isModeCall with
       | some sc => isFileCall sc
       | none => false) ∧
    (applyCalls RB.new calls).isJSON =
      (match calls.reverse.find? isModeCall with
       | some sc => isJsonCall sc
       | none => false) ∧
    (applyCalls RB.new calls).files.isEmpty = (!calls.any isFileCall) ∧
    (applyCalls RB.new calls).formFields.isEmpty = (!calls.any formAdds) := by
  induction calls using List.reverseRecOn with
  | nil => simp [applyCalls, RB.new]
  | append_singleton l c ih =>
    rw [List.all_append] at hall
    simp only [Bool.and_eq_true, List.all_cons, List.all_nil,
      Bool.and_true] at hall
    obtain ⟨hl, hc⟩ := hall
    obtain ⟨hm, hj, hf, hff⟩ := ih hl
    obtain ⟨am, aj, af, aff⟩ := applyCall_flags (applyCalls RB.new l) c hc
    have hstep : applyCalls RB.new (l ++ [c]) =
        applyCall (applyCalls RB.new l) c := by
      simp [applyCalls]
    have hrev : (l ++ [c]).reverse = c :: l.reverse := by simp
    rw [hstep, hrev]
    rcases hmode : isModeCall c
    · have hnotfile : isFileCall c = false := by
        rcases hfc : isFileCall c
        · rfl
        · have hmc := file_call_is_mode_call c hfc
          rw [hmode] at hmc
          exact hmc.symm
      rw [List.find?_cons_of_neg _ (by simp [hmode])]
      refine ⟨?_, ?_, ?_, ?_⟩
      · rw [am, if_neg (by simp [hmode]), hm]
      · rw [aj, if_neg (by simp [hmode]), hj]
      · rw [af, hf, hnotfile, List.any_append]
        simp [hnotfile]
      · rw [aff, hff, List.any_append]
        simp [Bool.not_or]
    · rw [List.find?_cons_of_pos _ hmode]
      refine ⟨?_, ?_, ?_, ?_⟩
      · rw [am, if_pos (by simp [hmode])]
      · rw [aj, if_pos (by simp [hmode])]
      · rw [af, hf, List.any_append]
        simp [Bool.not_or]
      · rw [aff, hff, List.any_append]
        simp [Bool.not_or]

/-- C4, counterexample: the claim says the active body mode is the one
selected by the last relevant (body-configuring) call and that multipart
takes precedence whenever any file was attached — `specActiveMode`, the
claim modelled word for word.  The code (`activeMode` after `applyCalls`)
disagrees twice: a `Form` call after `Json` does not displace the JSON
mode, and a `Body` call after a file attachment disables multipart even
though the file stays attached. -/
theorem C4_counterexample :
    activeMode (applyCalls RB.new
        [SetterCall.jsonC [], SetterCall.formC [("a", "b")]]) = BodyMode.jsonM ∧
    specActiveMode [SetterCall.jsonC [], SetterCall.formC [("a", "b")]] =
      BodyMode.formM ∧
    activeMode (applyCalls RB.new
        [SetterCall.fileBytesC "f" "n" [], SetterCall.bodyC []]) = BodyMode.rawM ∧
    specActiveMode [SetterCall.fileBytesC "f" "n" [], SetterCall.bodyC []] =
      BodyMode.multipartM := by
  refine ⟨by decide, by decide, by decide, by decide⟩

/-- C4, amended: for every sequence of body-configuring calls (`Body`,
`Json`, `Form`, `File`/`FileBytes`/`FileReader`) exactly one of the four
body modes is active when `Do` executes, but the selection is by the last
flag-writing call (`Body`, `Json` or a file-attaching call), not by the
last relevant call overall: multipart when that call attached a file,
JSON when it was `Json`; otherwise the form mode fires exactly when some
`Form` call added at least one field, and raw remains the default.  In
particular a `Form` call never displaces an earlier mode flag, and a
later `Body` or `Json` call disables multipart even though the attached
files remain. -/
theorem C4_amended_last_flag_call (calls : List SetterCall)
    (hall : calls.all isBodyConfigCall = true) :
    activeMode (applyCalls RB.new calls) = correctedMode calls := by
  obtain ⟨hm, hj, hf, hff⟩ := applyCalls_flags calls hall
  unfold activeMode correctedMode
  rcases hfind : calls.reverse.find? isModeCall with _ | sc <;>
    rw [hfind] at hm hj
  · simp only at hm hj
    rw [hm, hj, hff]
    simp
  · simp only at hm hj
    have hmem : sc ∈ calls := by
      have h1 := List.mem_of_find?_eq_some hfind
      exact List.mem_reverse.mp h1
    rcases hfile : isFileCall sc
    · rcases hjson : isJsonCall sc
      · simp [hm, hj, hff, hfile, hjson]
      · simp [hm, hj, hfile, hjson]
    · have hany : calls.any isFileCall = true :=
        List.any_eq_true.mpr ⟨sc, hmem, hfile⟩
      simp [hm, hf, hfile, hany]


theorem C4_witness :
    activeMode (applyCalls RB.new witCalls4) = correctedMode witCalls4 :=
  C4_amended_last_flag_call witCalls4 (by decide)

/-! ### Claim C7 -/

theorem hupdate_same (h : Heap) (p : Ptr) (rb : RB) : hupdate h p rb p = rb := by
  simp [hupdate]

theorem hupdate_other (h : Heap) (p q : Ptr) (rb : RB) (hq : q ≠ p) :
    hupdate h p rb q = h q := by
  simp [hupdate, hq]

theorem hupdate_self (h : Heap) (p : Ptr) : hupdate h p (h p) = h := by
  funext q
  by_cases hq : q = p
  · subst hq
    simp [hupdate]
  · simp [hupdate, hq]

/-- C7: every chained configuration call (all seventeen of `WithContext`,
`Method`, `URL`, `Param`, `Params`, `ParamsValues`, `Header`, `Headers`,
`Bearer`, `IsJSON`, `Body`, `Json`, `Form`, `File`, `FileBytes`,
`FileReader`, `WithTrace`) mutates exactly the builder behind its
receiver pointer and returns that same pointer: the returned pointer is
the receiver, the receiver cell now holds the updated record, and every
other cell is untouched. -/
theorem C7_setters_return_receiver (h : Heap) (p : Ptr) (sc : SetterCall) :
    (applySetter h p sc).2 = p ∧
    (applySetter h p sc).1 p = applyCall (h p) sc ∧
    (∀ q, q ≠ p → (applySetter h p sc).1 q = h q) := by
  refine ⟨rfl, hupdate_same h p _, fun q hq => hupdate_other h p q _ hq⟩


theorem C7_witness :
    (applySetter witHeap 0 (SetterCall.urlC "https://x.test")).2 = 0 ∧
    (applySetter witHeap 0 (SetterCall.urlC "https://x.test")).1 1 = RB.new := by
  obtain ⟨h1, _, h3⟩ :=
    C7_setters_return_receiver witHeap 0 (SetterCall.urlC "https://x.test")
  exact ⟨h1, h3 1 (by decide)⟩

/-! ### Claim C10 -/

theorem setPairs_eq_foldl : ∀ (pairs : List String) (hd : Header),
    setPairs hd pairs =
      (pairListOf pairs).foldl
        (fun h kv => headerSet h (goTrimSpace kv.1) (goTrimSpace kv.2)) hd
  | [], _ => rfl
  | [_], _ => rfl
  | _ :: _ :: rest, hd => by
    simp only [setPairs, pairListOf, List.foldl_cons]
    exact setPairs_eq_foldl rest _

theorem pairListOf_length : ∀ pairs : List String,
    (pairListOf pairs).length = pairs.length / 2
  | [] => rfl
  | [_] => by simp [pairListOf]
  | _ :: _ :: rest => by
    simp only [pairListOf, List.length_cons, pairListOf_length rest]
    omega

/-- C10: `Headers` with an odd number of string arguments leaves the
builder — and the whole heap — unchanged and still returns the receiver;
with an even number of arguments `2n` it sets `n` headers, one per
consecutive pair, trimming whitespace from each key and value. -/
theorem C10_headers_parity (h : Heap) (p : Ptr) (pairs : List String) :
    (pairs.length % 2 ≠ 0 →
      applySetter h p (SetterCall.headersC pairs) = (h, p)) ∧
    (pairs.length % 2 = 0 →
      applySetter h p (SetterCall.headersC pairs) =
        (hupdate h p
          { h p with headers := headersAfterPairs (h p).headers pairs }, p) ∧
      (pairListOf pairs).length = pairs.length / 2) := by
  constructor
  · intro hodd
    have hrb : RB.setHeaders (h p) pairs = h p := by
      simp [RB.setHeaders, hodd]
    simp [applySetter, applyCall, hrb, hupdate_self]
  · intro heven
    refine ⟨?_, pairListOf_length pairs⟩
    have hrb : RB.setHeaders (h p) pairs =
        { h p with headers := setPairs (h p).headers pairs } := by
      simp [RB.setHeaders, heven]
    simp [applySetter, applyCall, hrb, headersAfterPairs, setPairs_eq_foldl]


theorem C10_witness :
    applySetter witHeap 0 (SetterCall.headersC ["odd"]) = (witHeap, 0) ∧
    applySetter witHeap 0 (SetterCall.headersC witPairsEven) =
      (hupdate witHeap 0
        { witHeap 0 with
            headers := headersAfterPairs (witHeap 0).headers witPairsEven }, 0) := by
  refine ⟨(C10_headers_parity witHeap 0 ["odd"]).1 (by decide),
    ((C10_headers_parity witHeap 0 witPairsEven).2 (by decide)).1⟩

/-! ### Association-list lemmas for headers -/

theorem assocFind_eq_none {α : Type} (m : List (String × α)) (k : String)
    (h : m.any (fun kv => kv.1 = k) = false) : assocFind m k = none := by
  induction m with
  | nil => rfl
  | cons kv rest ih =>
    simp only [List.any_cons, Bool.or_eq_false_iff] at h
    simp only [assocFind, if_neg (by simpa using h.1)]
    exact ih h.2

theorem assocFind_append {α : Type} (m l : List (String × α)) (k : String) :
    assocFind (m ++ l) k =
      (match assocFind m k with
       | some v => some v
       | none => assocFind l k) := by
  induction m with
  | nil => simp [assocFind]
  | cons kv rest ih =>
    by_cases hk : kv.1 = k
    · simp [assocFind, hk]
    · simp [assocFind, hk, ih]

theorem assocFind_mapSet_same {α : Type} (m : List (String × α)) (k : String)
    (v : α) : assocFind (mapSet m k v) k = some v := by
  unfold mapSet
  rcases ha : m.any (fun kv => kv.1 = k) with _ | _
  · simp only [Bool.false_eq_true, if_false]
    rw [assocFind_append, assocFind_eq_none m k ha]
    simp [assocFind]
  · simp only [if_true]
    induction m with
    | nil => simp at ha
    | cons kv rest ih =>
      by_cases hk : kv.1 = k
      · simp [assocFind, hk]
      · simp only [List.any_cons, Bool.or_eq_true] at ha
        rcases ha with ha1 | ha2
        · simp at ha1
          exact absurd ha1 hk
        · simp only [List.map_cons, if_neg hk, assocFind, hk,
            if_false]
          exact ih ha2

theorem assocFind_map_replace {α : Type} (m : List (String × α))
    (k k' : String) (v : α) (hne : k' ≠ k) :
    assocFind (m.map (fun kv => if kv.1 = k then (k, v) else kv)) k' =
      assocFind m k' := by
  induction m with
  | nil => rfl
  | cons kv rest ih =>
    by_cases hk : kv.1 = k
    · simp only [List.map_cons, if_pos hk, assocFind]
      rw [if_neg (show ¬(k, v).1 = k' from Ne.symm hne),
        if_neg (show ¬kv.1 = k' by rw [hk]; exact Ne.symm hne)]
      exact ih
    · simp only [List.map_cons, if_neg hk, assocFind]
      by_cases hk' : kv.1 = k'
      · simp [hk']
      · simp [hk', ih]

theorem assocFind_mapSet_other {α : Type} (m : List (String × α))
    (k k' : String) (v : α) (hne : k' ≠ k) :
    assocFind (mapSet m k v) k' = assocFind m k' := by
  unfold mapSet
  split
  · exact assocFind_map_replace m k k' v hne
  · rw [assocFind_append]
    rcases hf : assocFind m k' with _ | w
    · simp [assocFind, Ne.symm hne]
    · simp

theorem headerGet_headerSet_same (h : Header) (k v : String) :
    headerGet (headerSet h k v) k = v := by
  unfold headerGet headerSet
  rw [assocFind_mapSet_same]

theorem headerGet_headerSet_other (h : Header) (k k' v : String)
    (hne : canonicalMIMEHeaderKey k' ≠ canonicalMIMEHeaderKey k) :
    headerGet (headerSet h k v) k' = headerGet h k' := by
  unfold headerGet headerSet
  rw [assocFind_mapSet_other _ _ _ _ hne]

theorem mapSet_map_fst {α : Type} (m : List (String × α)) (k : String)
    (v : α) :
    (mapSet m k v).map Prod.fst =
      (if m.any (fun kv => kv.1 = k) then m.map Prod.fst
       else m.map Prod.fst ++ [k]) := by
  unfold mapSet
  split
  · rw [List.map_map]
    refine List.map_congr_left ?_
    intro kv _
    by_cases hk : kv.1 = k
    · simp [hk]
    · simp [hk]
  · simp

theorem not_mem_keys {α : Type} (m : List (String × α)) (k : String)
    (h : m.any (fun kv => kv.1 = k) = false) : k ∉ m.map Prod.fst := by
  rw [List.any_eq_false] at h
  intro hmem
  rcases List.mem_map.mp hmem with ⟨kv, hkv, hfst⟩
  have hne := h kv hkv
  simp [hfst] at hne

theorem headerSet_WF (h : Header) (k v : String) (hwf : HeaderWF h)
    (hk : canonicalMIMEHeaderKey (canonicalMIMEHeaderKey k) =
      canonicalMIMEHeaderKey k) :
    HeaderWF (headerSet h k v) := by
  obtain ⟨hent, hnd⟩ := hwf
  unfold headerSet
  constructor
  · intro kv hkv
    unfold mapSet at hkv
    split at hkv
    · rcases List.mem_map.mp hkv with ⟨kv0, hkv0, hf⟩
      by_cases h0 : kv0.1 = canonicalMIMEHeaderKey k
      · rw [if_pos h0] at hf
        rw [← hf]
        exact ⟨hk, by simp⟩
      · rw [if_neg h0] at hf
        rw [← hf]
        exact hent kv0 hkv0
    · rcases List.mem_append.mp hkv with hin | hin
      · exact hent kv hin
      · have : kv = (canonicalMIMEHeaderKey k, [v]) := by simpa using hin
        rw [this]
        exact ⟨hk, by simp⟩
  · rw [mapSet_map_fst]
    rcases ha : h.any (fun kv => kv.1 = canonicalMIMEHeaderKey k)
    · rw [if_neg (by simp), List.nodup_append]
      refine ⟨hnd, List.nodup_singleton _, ?_⟩
      intro a hmem hb
      have hb' : a = canonicalMIMEHeaderKey k := by simpa using hb
      exact not_mem_keys h _ ha (hb' ▸ hmem)
    · rw [if_pos (by simp)]
      exact hnd

theorem foldl_headerAdd_run (vs : List String) (acc0 : Header) (k : String)
    (us : List String) (hk : canonicalMIMEHeaderKey k = k)
    (hnot : acc0.any (fun kv => kv.1 = k) = false) :
    vs.foldl (fun a v => headerAdd a k v) (acc0 ++ [(k, us)]) =
      acc0 ++ [(k, us ++ vs)] := by
  induction vs generalizing us with
  | nil => simp
  | cons v vs ih =>
    simp only [List.foldl_cons]
    have hstep : headerAdd (acc0 ++ [(k, us)]) k v = acc0 ++ [(k, us ++ [v])] := by
      simp only [headerAdd, hk]
      rw [if_pos (by simp [List.any_append]), List.map_append]
      congr 1
      · calc acc0.map (fun kv => if kv.1 = k then (kv.1, kv.2 ++ [v]) else kv)
            = acc0.map (fun kv => kv) := by
              refine List.map_congr_left ?_
              intro kv hkv
              rw [List.any_eq_false] at hnot
              exact if_neg (by simpa using hnot kv hkv)
          _ = acc0 := List.map_id' acc0
      · simp
    rw [hstep, ih (us ++ [v])]
    simp

theorem foldl_headerAdd_fresh (vs : List String) (acc : Header) (k : String)
    (hk : canonicalMIMEHeaderKey k = k)
    (hnot : acc.any (fun kv => kv.1 = k) = false) (hne : vs ≠ []) :
    vs.foldl (fun a v => headerAdd a k v) acc = acc ++ [(k, vs)] := by
  rcases vs with _ | ⟨v, vs⟩
  · exact absurd rfl hne
  · simp only [List.foldl_cons]
    have hstep : headerAdd acc k v = acc ++ [(k, [v])] := by
      simp only [headerAdd, hk]
      rw [if_neg (by simp [hnot])]
    rw [hstep, foldl_headerAdd_run vs acc k [v] hk hnot]
    rfl

theorem copyHeaders_go (h : Header) (acc : Header)
    (hent : ∀ kv ∈ h, canonicalMIMEHeaderKey kv.1 = kv.1 ∧ kv.2 ≠ [])
    (hfresh : ∀ kv ∈ h, acc.any (fun kv2 => kv2.1 = kv.1) = false)
    (hnd : (h.map Prod.fst).Nodup) :
    h.foldl (fun a kv => kv.2.foldl (fun a2 v => headerAdd a2 kv.1 v) a) acc =
      acc ++ h := by
  induction h generalizing acc with
  | nil => simp
  | cons kv rest ih =>
    simp only [List.foldl_cons]
    obtain ⟨hk, hvne⟩ := hent kv (by simp)
    rw [foldl_headerAdd_fresh kv.2 acc kv.1 hk (hfresh kv (by simp)) hvne]
    rw [List.map_cons] at hnd
    have hnd' : (rest.map Prod.fst).Nodup := (List.nodup_cons.mp hnd).2
    have hknot : kv.1 ∉ rest.map Prod.fst := (List.nodup_cons.mp hnd).1
    rw [ih (acc ++ [(kv.1, kv.2)])
      (fun kv2 h2 => hent kv2 (List.mem_cons_of_mem _ h2))
      ?_ hnd']
    · simp
    · intro kv2 h2
      rw [List.any_append]
      have h1 : acc.any (fun x => x.1 = kv2.1) = false :=
        hfresh kv2 (List.mem_cons_of_mem _ h2)
      have h2' : kv.1 ≠ kv2.1 := by
        intro he
        exact hknot (he ▸ List.mem_map.mpr ⟨kv2, h2, rfl⟩)
      simp [h1, h2']

theorem copyHeaders_eq (h : Header) (hwf : HeaderWF h) : copyHeaders h = h := by
  obtain ⟨hent, hnd⟩ := hwf
  unfold copyHeaders
  rw [copyHeaders_go h [] hent (fun kv _ => rfl) hnd]
  simp

/-! ### Claim C5 -/

theorem canonical_content_type :
    canonicalMIMEHeaderKey "Content-Type" = "Content-Type" := by decide

theorem canonical_content_type_idem :
    canonicalMIMEHeaderKey (canonicalMIMEHeaderKey "Content-Type") =
      canonicalMIMEHeaderKey "Content-Type" := by decide

theorem serializeBody_headers (env : DoEnv) (rb rb1 : RB)
    (hs : serializeBody env rb = .ok rb1) :
    rb1.headers =
      (match activeMode rb with
       | BodyMode.multipartM =>
           headerSet rb.headers "Content-Type" (formDataContentType env.boundary)
       | BodyMode.jsonM =>
           headerSet rb.headers "Content-Type" "application/json"
       | BodyMode.formM =>
           headerSet rb.headers "Content-Type" "application/x-www-form-urlencoded"
       | BodyMode.rawM => rb.headers) := by
  unfold serializeBody at hs
  unfold activeMode
  rcases h1 : (rb.isMultipart && !rb.files.isEmpty)
  · rw [h1] at hs
    simp only [Bool.false_eq_true, if_false] at hs ⊢
    rcases h2 : rb.isJSON
    · rw [h2] at hs
      simp only [Bool.false_eq_true, if_false] at hs ⊢
      rcases h3 : (!rb.formFields.isEmpty)
      · rw [h3] at hs
        simp only [Bool.false_eq_true, if_false] at hs ⊢
        injection hs with h
        rw [← h]
      · rw [h3] at hs
        simp only [if_true] at hs ⊢
        injection hs with h
        rw [← h]
    · rw [h2] at hs
      simp only [if_true] at hs ⊢
      injection hs with h
      rw [← h]
  · rw [h1] at hs
    simp only [if_true] at hs ⊢
    rcases hcf : collectFiles rb.files with e | fs
    · rw [hcf] at hs
      exact absurd hs (by simp)
    · rw [hcf] at hs
      simp only at hs
      injection hs with h
      rw [← h]

theorem serializeBody_WF (env : DoEnv) (rb rb1 : RB) (hwf : HeaderWF rb.headers)
    (hs : serializeBody env rb = .ok rb1) : HeaderWF rb1.headers := by
  rw [serializeBody_headers env rb rb1 hs]
  rcases activeMode rb <;>
    first
      | exact headerSet_WF rb.headers _ _ hwf canonical_content_type_idem
      | exact hwf

/-- C5: when `Do` reaches the client, the outgoing request carries the
`Content-Type` matching the active body mode (the multipart content type
with the writer boundary, `application/json`, or
`application/x-www-form-urlencoded`); when any query parameter was
accumulated the request URL carries the encoded parameters as its query
string; and every accumulated header other than `Content-Type` is
attached to the request unchanged.  `hwf` states that the builder
headers were accumulated through `Set` (canonical unique keys, non-empty
values), which holds for every reachable builder. -/
theorem C5_do_serialization (env : DoEnv) (rb rb1 : RB) (req : Request)
    (hwf : HeaderWF rb.headers)
    (hp : doPrep env rb = .ok (rb1, req)) :
    (activeMode rb = BodyMode.multipartM →
      headerGet req.headers "Content-Type" = formDataContentType env.boundary) ∧
    (activeMode rb = BodyMode.jsonM →
      headerGet req.headers "Content-Type" = "application/json") ∧
    (activeMode rb = BodyMode.formM →
      headerGet req.headers "Content-Type" = "application/x-www-form-urlencoded") ∧
    (rb.params.isEmpty = false →
      req.url.rawQuery = encodeValues rb.params) ∧
    (∀ k, canonicalMIMEHeaderKey k ≠ "Content-Type" →
      headerGet req.headers k = headerGet rb.headers k) := by
  unfold doPrep at hp
  rcases hsb : serializeBody env rb with e | rb1'
  · rw [hsb] at hp
    exact absurd hp (by simp)
  rw [hsb] at hp
  simp only at hp
  rcases hnr : env.newReqErr rb1'.method (resolveUrl env rb) with _ | e
  · rw [hnr] at hp
    simp only at hp
    injection hp with hpair
    injection hpair with hrb hreq
    have hwf1 : HeaderWF rb1'.headers := serializeBody_WF env rb rb1' hwf hsb
    have hcopy : copyHeaders rb1'.headers = rb1'.headers := copyHeaders_eq _ hwf1
    have hhdr : req.headers = rb1'.headers := by
      rw [← hreq]
      exact hcopy
    have hurl : req.url = resolveUrl env rb := by rw [← hreq]
    have hhs := serializeBody_headers env rb rb1' hsb
    refine ⟨?_, ?_, ?_, ?_, ?_⟩
    · intro hmode
      rw [hhdr, hhs, hmode]
      exact headerGet_headerSet_same _ _ _
    · intro hmode
      rw [hhdr, hhs, hmode]
      exact headerGet_headerSet_same _ _ _
    · intro hmode
      rw [hhdr, hhs, hmode]
      exact headerGet_headerSet_same _ _ _
    · intro hne
      rw [hurl]
      unfold resolveUrl
      rw [if_pos (by simp [hne])]
    · intro k hk
      rw [hhdr, hhs]
      rcases activeMode rb <;>
        first
          | rfl
          | exact headerGet_headerSet_other _ _ _ _
              (by rw [canonical_content_type]; exact hk)
  · rw [hnr] at hp
    exact absurd hp (by simp)

/-! ### Claim C6 -/

/-- C6: `Do` delegates to the explicitly supplied non-nil client when one
is given and otherwise to the process-wide default; the Go pair it
returns is never `(nil, nil)` — exactly one of response and error is
present — and a returned response is precisely the fresh wrapper around
what the chosen client returned for the prepared request. -/
theorem C6_client_selection (env : DoEnv)
    (send : Client → Request → Except String HttpResp)
    (clients : List (Option Client)) (defc : Client) (rb : RB) :
    ((doRun env send clients defc rb).1.isNone =
      (doRun env send clients defc rb).2.isSome) ∧
    (∀ resp, (doRun env send clients defc rb).1 = some resp →
      resp = mkResponse resp.resp ∧
      (∀ rb1 req, doPrep env rb = .ok (rb1, req) →
        send (chooseClient clients defc) req = .ok resp.resp)) ∧
    (∀ c rest, chooseClient (some c :: rest) defc = c) ∧
    (∀ rest, chooseClient (none :: rest) defc = defc) ∧
    chooseClient [] defc = defc := by
  refine ⟨?_, ?_, fun c rest => rfl, fun rest => rfl, rfl⟩
  · unfold doRun
    rcases hp : doPrep env rb with e | pr
    · rfl
    · rcases pr with ⟨rb1, req⟩
      simp only
      rcases hsend : send (chooseClient clients defc) req with e | hr <;> simp
  · intro resp hresp
    unfold doRun at hresp
    rcases hp : doPrep env rb with e | ⟨rb1, req⟩ <;> rw [hp] at hresp
    · simp at hresp
    · simp only at hresp
      rcases hsend : send (chooseClient clients defc) req with e | hr <;>
        rw [hsend] at hresp
      · simp at hresp
      · simp only [Option.some.injEq] at hresp
        refine ⟨?_, ?_⟩
        · rw [← hresp]
          rfl
        · intro rb1' req' hp'
          injection hp' with hpair
          injection hpair with _ hreq
          rw [← hreq, ← hresp]
          exact hsend

/-! ### Witness fixtures and witnesses for C5 and C6 -/





theorem C5_witness :
    headerGet witReq5.headers "Content-Type" = "application/json" ∧
    witReq5.url.rawQuery = encodeValues witRb5.params ∧
    headerGet witReq5.headers "X-A" = headerGet witRb5.headers "X-A" := by
  obtain ⟨_, h2, _, h4, h5⟩ :=
    C5_do_serialization witEnv witRb5 witRb5' witReq5
      ⟨by decide, by decide⟩ rfl
  exact ⟨h2 (by decide), h4 (by decide), h5 "X-A" (by decide)⟩




theorem C6_witness :
    ((doRun witEnv witSendOk [] 0 RB.new).1.isNone =
      (doRun witEnv witSendOk [] 0 RB.new).2.isSome) ∧
    mkResponse witHr6 = mkResponse (mkResponse witHr6).resp ∧
    witSendOk (chooseClient [] 0) witReq6 = .ok (mkResponse witHr6).resp ∧
    chooseClient [some 7, none] 0 = 7 ∧
    chooseClient [none] 0 = 0 ∧
    chooseClient [] 0 = 0 := by
  obtain ⟨h1, h2, h3, h4, h5⟩ :=
    C6_client_selection witEnv witSendOk [] 0 RB.new
  obtain ⟨h21, h22⟩ := h2 (mkResponse witHr6) rfl
  exact ⟨h1, h21, h22 RB.new witReq6 rfl, h3 7 [none], h4 [], h5⟩

end Reqx
